import Mathlib

/-!
# Verification of the `cashu-broker` atomic swap engine

Shallow embedding of the core of `cashu-broker` (an atomic e-cash swap broker)
and proofs of the specification's claims about it.

Conventions of the embedding:

* Rust `u64` values are modelled as `Nat` (no arithmetic in the engine can
  overflow 64 bits for the amounts involved; `saturating_sub` is Nat
  subtraction, which saturates at zero exactly like the source).
* The single `f64` computation in the engine (the fee) is modelled as exact
  rational arithmetic over `ℚ`.
* secp256k1 scalars are `ZMod secpOrder`; points are modelled in discrete-log
  representation (the point `k·G` is represented by `k : ZMod secpOrder`),
  which is faithful for the group written additively: point addition is scalar
  addition of indices and `s·G` is `s` itself.
* `HashMap` state is modelled as an association list with `lookupA`/`insertA`.
* External collaborators (the cdk mint wallets, the system clock, the RNG) are
  passed in explicitly: wallet calls are oracle function parameters, clock
  reads and random draws are arguments.
* Fallible Rust functions returning `Result` are modelled with `Except`.
-/

namespace CashuBroker

/-- Order of the secp256k1 group. -/
def secpOrder : Nat :=
  115792089237316195423570985008687907852837564279074904382605163141518161494337

/-- A secp256k1 scalar (`schnorr_fun::fun::Scalar`). -/
abbrev Scalar := ZMod secpOrder

/-- A secp256k1 group element (`schnorr_fun::fun::Point`), in discrete-log
representation: the element `k·G` is represented by `k`. -/
abbrev GPoint := ZMod secpOrder

/-- `adaptor_point_from_secret` / `point_from_scalar`: `s ↦ s·G`.  In
discrete-log representation this is the identity on indices. -/
def pointFromScalar (s : Scalar) : GPoint := s

/-- `add_scalars` in `adaptor.rs`: `a + b mod n`. -/
def add_scalars (a b : Scalar) : Scalar := a + b

/-- `tweak_public_key` in `adaptor.rs`: `P + Q`. -/
def tweak_public_key (p q : GPoint) : GPoint := p + q

/-- `Scalar::to_bytes`: 32-byte big-endian encoding of a scalar. -/
def scalarBytes (s : Scalar) : List Nat :=
  (List.range 32).map (fun i => s.val / 256 ^ (31 - i) % 256)

/-- `Point::to_bytes` (compressed SEC, 33 bytes).  The group is in discrete-log
representation, so the encoding is modelled as a parity-style tag byte followed
by the 32-byte index; it matches the real compressed encoding in length (33)
and injectivity, which is all the development relies on. -/
def pointBytes (p : GPoint) : List Nat := 2 :: scalarBytes p

/-- Big-endian byte-list to natural number. -/
def bytesToNat (bs : List Nat) : Nat := List.foldl (fun a b => a * 256 + b) 0 bs

theorem scalarBytes_length (s : Scalar) : (scalarBytes s).length = 32 := by
  simp [scalarBytes]

theorem pointBytes_length (p : GPoint) : (pointBytes p).length = 33 := by
  simp [pointBytes, scalarBytes_length]

theorem pointBytes_ne_scalarBytes (p : GPoint) (s : Scalar) :
    pointBytes p ≠ scalarBytes s := by
  intro h
  have := congrArg List.length h
  rw [pointBytes_length, scalarBytes_length] at this
  exact absurd this (by decide)

/-- `hex::encode`, modelled at the digit level: each byte becomes its two hex
digits.  It is injective on byte lists and doubles the length, which is all the
secrecy arguments use. -/
def hexEncode : List Nat → List Nat
  | [] => []
  | b :: bs => b / 16 :: b % 16 :: hexEncode bs

theorem hexEncode_length (bs : List Nat) : (hexEncode bs).length = 2 * bs.length := by
  induction bs with
  | nil => rfl
  | cons b bs ih => simp [hexEncode, ih]; omega

/- ## Error type (`error.rs`) -/

/-- `BrokerError` from `error.rs` (the `Io`/`Serialization`/`Other` transparent
wrappers are collapsed into their message strings). -/
inductive BrokerError
  | InsufficientLiquidity (mint_url : String) (needed available : Nat)
  | InvalidSwapRequest (msg : String)
  | QuoteNotFound (id : String)
  | QuoteExpired (id : String)
  | AmountTooLow (amount min : Nat)
  | AmountTooHigh (amount max : Nat)
  | UnsupportedMint (url : String)
  | SameMintSwap
  | AdaptorSignature (msg : String)
  | Cdk (msg : String)
  deriving DecidableEq, Repr

instance instDecidableEqExcept {ε α : Type} [DecidableEq ε] [DecidableEq α] :
    DecidableEq (Except ε α)
  | .ok x, .ok y =>
      if h : x = y then isTrue (by rw [h])
      else isFalse (fun hh => h (Except.ok.inj hh))
  | .error e, .error f =>
      if h : e = f then isTrue (by rw [h])
      else isFalse (fun hh => h (Except.error.inj hh))
  | .ok _, .error _ => isFalse (fun hh => Except.noConfusion hh)
  | .error _, .ok _ => isFalse (fun hh => Except.noConfusion hh)

/- ## Data model (`types.rs`) -/

/-- `MintConfig` from `types.rs`. -/
structure MintConfig where
  mint_url : String
  name : String
  unit : String
  deriving DecidableEq, Repr

/-- `BrokerConfig` from `types.rs`; `fee_rate : f64` is embedded as `ℚ`. -/
structure BrokerConfig where
  mints : List MintConfig
  fee_rate : ℚ
  min_swap_amount : Nat
  max_swap_amount : Nat
  quote_expiry_seconds : Nat
  deriving DecidableEq, Repr

/-- `SwapRequest` from `types.rs` (`client_id` is carried nowhere in the engine
and is omitted). -/
structure SwapRequest where
  from_mint : String
  to_mint : String
  amount : Nat
  client_public_key : Option (List Nat)
  deriving DecidableEq, Repr

/-- `SwapStatus` from `types.rs`. -/
inductive SwapStatus
  | Pending
  | Accepted
  | Completed
  | Expired
  | Failed
  deriving DecidableEq, Repr

/-- `Display for SwapStatus`. -/
def statusString : SwapStatus → String
  | .Pending => "pending"
  | .Accepted => "accepted"
  | .Completed => "completed"
  | .Expired => "expired"
  | .Failed => "failed"

/-- `SwapQuote` from `types.rs`.  `expires_at : SystemTime` is epoch seconds. -/
structure SwapQuote where
  quote_id : String
  from_mint : String
  to_mint : String
  input_amount : Nat
  output_amount : Nat
  fee : Nat
  fee_rate : ℚ
  broker_public_key : List Nat
  adaptor_point : List Nat
  tweaked_pubkey : Option (List Nat)
  adaptor_secret : List Nat
  expires_in : Nat
  expires_at : Nat
  status : SwapStatus
  deriving DecidableEq, Repr

/-- A cdk `Proof` restricted to the fields the broker reads: its amount, its
secret (the unique identifier `remove_proofs` filters by) and its witness
(opaque data the broker never inspects). -/
structure Proof where
  amount : Nat
  secret : Nat
  witness : Nat
  deriving DecidableEq, Repr

/-- Sum of the amounts of a proof set. -/
def proofsSum (ps : List Proof) : Nat := (ps.map Proof.amount).sum

/-- `serialize_proofs` in `swap.rs` (serde_json bytes), modelled as the flat
field listing; only used as opaque stored data. -/
def proofsSerialize (ps : List Proof) : List Nat :=
  ps.foldr (fun p acc => p.amount :: p.secret :: p.witness :: acc) []

/-- `SwapExecution` from `types.rs`. -/
structure SwapExecution where
  quote_id : String
  client_tokens : List Nat
  broker_tokens : List Nat
  client_swap_complete : Bool
  broker_swap_complete : Bool
  completed_at : Option Nat
  deriving DecidableEq, Repr

/- ## Association-list maps (the `HashMap`s of the source) -/

/-- `HashMap::get`. -/
def lookupA {α : Type} : List (String × α) → String → Option α
  | [], _ => none
  | p :: l, k => if p.1 == k then some p.2 else lookupA l k

/-- `HashMap::insert` (replace if present, add otherwise). -/
def insertA {α : Type} : List (String × α) → String → α → List (String × α)
  | [], k, v => [(k, v)]
  | p :: l, k, v => if p.1 == k then (k, v) :: l else p :: insertA l k v

/-- `HashMap::get_mut` followed by a field update; leaves the map unchanged when
the key is absent. -/
def updateA {α : Type} : List (String × α) → String → (α → α) → List (String × α)
  | [], _, _ => []
  | p :: l, k, f => if p.1 == k then (p.1, f p.2) :: l else p :: updateA l k f

/- ## Liquidity ledger (`liquidity.rs`) -/

/-- `MintLiquidity` from `liquidity.rs`; `last_updated : SystemTime` is epoch
seconds. -/
structure MintLiquidity where
  mint_url : String
  balance : Nat
  proofs : List Proof
  last_updated : Nat
  deriving DecidableEq, Repr

/-- The `LiquidityManager`'s mutable state: its `liquidity` map.  The `wallets`
map is built in `LiquidityManager::new` with exactly the same keys, so wallet
existence (`get_wallet`) is modelled as key membership in this map. -/
abbrev Ledger := List (String × MintLiquidity)

/-- `get_balance` in `liquidity.rs` (0 for an unknown mint). -/
def get_balance (ledger : Ledger) (mint_url : String) : Nat :=
  ((lookupA ledger mint_url).map MintLiquidity.balance).getD 0

/-- `can_swap` in `liquidity.rs`: `get_balance(mint) ≥ amount`. -/
def can_swap (ledger : Ledger) (mint_url : String) (amount : Nat) : Bool :=
  amount ≤ get_balance ledger mint_url

/-- `add_proofs` in `liquidity.rs`: extend the proof set and raise the balance
by the summed amount; `UnsupportedMint` for an unconfigured mint. -/
def add_proofs (ledger : Ledger) (mint_url : String) (ps : List Proof)
    (now : Nat) : Except BrokerError Ledger :=
  match lookupA ledger mint_url with
  | none => .error (.UnsupportedMint mint_url)
  | some m =>
      .ok (insertA ledger mint_url
        { m with
          proofs := m.proofs ++ ps
          balance := m.balance + proofsSum ps
          last_updated := now })

/-- `remove_proofs` in `liquidity.rs`: drop held proofs whose secret occurs in
the argument set, and lower the balance by the summed argument amounts with
`saturating_sub`; `UnsupportedMint` for an unconfigured mint. -/
def remove_proofs (ledger : Ledger) (mint_url : String) (ps : List Proof)
    (now : Nat) : Except BrokerError Ledger :=
  match lookupA ledger mint_url with
  | none => .error (.UnsupportedMint mint_url)
  | some m =>
      let secrets_to_remove := ps.map Proof.secret
      .ok (insertA ledger mint_url
        { m with
          proofs := m.proofs.filter (fun p => !(secrets_to_remove.contains p.secret))
          balance := m.balance - proofsSum ps
          last_updated := now })

/- ## Swap coordinator (`swap.rs`) -/

/-- `QuoteData` from `swap.rs`: the stored quote together with the two private
scalars that never leave the coordinator. -/
structure QuoteData where
  quote : SwapQuote
  broker_swap_key : Scalar
  adaptor_secret : Scalar
  deriving DecidableEq, Repr

/-- The `SwapCoordinator`'s mutable maps (`quotes`, `executions`) together with
the `LiquidityManager` state it operates on. -/
structure CoordState where
  quotes : List (String × QuoteData)
  executions : List (String × SwapExecution)
  ledger : Ledger
  deriving DecidableEq, Repr

/-- `validate_swap_request` in `swap.rs`: bounds, mint support, not same-mint,
checked in source order with the first failure returned. -/
def validate_swap_request (cfg : BrokerConfig) (req : SwapRequest) :
    Except BrokerError Unit :=
  if req.amount < cfg.min_swap_amount then
    .error (.AmountTooLow req.amount cfg.min_swap_amount)
  else if req.amount > cfg.max_swap_amount then
    .error (.AmountTooHigh req.amount cfg.max_swap_amount)
  else if !((cfg.mints.map MintConfig.mint_url).contains req.from_mint) then
    .error (.UnsupportedMint req.from_mint)
  else if !((cfg.mints.map MintConfig.mint_url).contains req.to_mint) then
    .error (.UnsupportedMint req.to_mint)
  else if req.from_mint == req.to_mint then
    .error .SameMintSwap
  else
    .ok ()

/-- Fuel-driven binary logarithm: `log2fuel fuel n = ⌊log2 n⌋` whenever
`fuel ≥ ⌊log2 n⌋` (so `fuel = n` always suffices).  Structural recursion on
the fuel keeps it kernel-evaluable. -/
def log2fuel : Nat → Nat → Nat
  | 0, _ => 0
  | fuel + 1, n => if n ≤ 1 then 0 else log2fuel fuel (n / 2) + 1

/-- `⌊log2 n⌋` for `n ≥ 1` (and 0 at 0). -/
def natLog2 (n : Nat) : Nat := log2fuel n n

/-- Round the fraction `num / den` (`den > 0`) to the nearest integer, ties
to even. -/
def rnEven (num den : Nat) : Nat :=
  if 2 * (num % den) > den then num / den + 1
  else if 2 * (num % den) < den then num / den
  else if num / den % 2 = 0 then num / den else num / den + 1

/-- `⌊log2 (num / den)⌋` for positive `num` and `den`: the bit-length
difference is correct up to one, fixed by comparing with the candidate power
of two. -/
def fracLog2 (num den : Nat) : Int :=
  let c : Int := (natLog2 num : Int) - (natLog2 den : Int)
  if 0 ≤ c then
    if den * 2 ^ c.toNat ≤ num then c else c - 1
  else
    if den ≤ num * 2 ^ (-c).toNat then c else c - 1

/-- IEEE-754 binary64 rounding of the non-negative fraction `num / den`
(`den > 0`): round to nearest, ties to even, at 53 significant bits, with the
subnormal cutoff at `2⁻¹⁰⁷⁴` (granularity `2^e` where
`e = max (⌊log2 q⌋ − 52) (−1074)`).  Overflow to infinity is not modelled:
every quantity the broker computes stays far below `2¹⁰²⁴`.  The result is
the rounded value as an exact rational. -/
def fp64roundPos (num den : Nat) : ℚ :=
  let e : Int := max (fracLog2 num den - 52) (-1074)
  if 0 ≤ e then
    ((rnEven num (den * 2 ^ e.toNat) * 2 ^ e.toNat : Nat) : ℚ)
  else
    mkRat (rnEven (num * 2 ^ (-e).toNat) den) (2 ^ (-e).toNat)

/-- The `u64 as f64` cast: one IEEE binary64 rounding of the integer. -/
def fp64ofNat (n : Nat) : ℚ := fp64roundPos n 1

/-- binary64 multiplication of two binary64 values: the sign is the product
sign and the magnitude is the exact product magnitude after one IEEE binary64
rounding. -/
def fp64mul (x y : ℚ) : ℚ :=
  if 0 ≤ x.num * y.num then
    fp64roundPos (x.num.natAbs * y.num.natAbs) (x.den * y.den)
  else
    -(fp64roundPos (x.num.natAbs * y.num.natAbs) (x.den * y.den))

/-- `⌈q⌉` computed on the numerator/denominator representation, so the kernel
can evaluate it; `ratCeil_eq_ceil` identifies it with `Int.ceil`. -/
def ratCeil (q : ℚ) : Int := -((-q.num) / (q.den : Int))

theorem ratCeil_eq_ceil (q : ℚ) : ratCeil q = ⌈q⌉ := by
  conv_rhs => rw [← neg_neg q]
  rw [Int.ceil_neg, Rat.floor_def, Rat.num_neg_eq_neg_num, Rat.den_neg_eq_den]
  rfl

/-- The fee computation in `create_quote`:
`((request.amount as f64) * self.config.fee_rate).ceil() as u64`.
`fee_rate` is itself an `f64`, carried here as its exact rational value; the
`as f64` cast of the amount and the `f64` multiplication each perform one
IEEE-754 binary64 rounding (`fp64ofNat`, `fp64mul`); `.ceil()` of a binary64
value is exact (`ratCeil`); and the `as u64` cast clamps below at zero
(`Int.toNat`; its saturation at `u64::MAX` is not modelled — `u64` amounts
with fee rates below one keep the result in range). -/
def quoteFee (amount : Nat) (fee_rate : ℚ) : Nat :=
  (ratCeil (fp64mul (fp64ofNat amount) fee_rate)).toNat

/-- The `SwapQuote` value assembled by `create_quote` from the request, the two
fresh private scalars, the generated quote id and the current time. -/
def build_quote (cfg : BrokerConfig) (req : SwapRequest)
    (adaptor_secret broker_swap_key : Scalar) (quote_id : String) (now : Nat) :
    SwapQuote :=
  let fee := quoteFee req.amount cfg.fee_rate
  let output_amount := req.amount - fee
  let adaptor_point := pointFromScalar adaptor_secret
  let broker_pubkey_point := pointFromScalar broker_swap_key
  let tweaked_pubkey_point := broker_pubkey_point + adaptor_point
  { quote_id
    from_mint := req.from_mint
    to_mint := req.to_mint
    input_amount := req.amount
    output_amount
    fee
    fee_rate := cfg.fee_rate
    broker_public_key := pointBytes broker_pubkey_point
    adaptor_point := pointBytes adaptor_point
    tweaked_pubkey := some (pointBytes tweaked_pubkey_point)
    adaptor_secret := scalarBytes adaptor_secret
    expires_in := cfg.quote_expiry_seconds
    expires_at := now + cfg.quote_expiry_seconds
    status := .Pending }

/-- `create_quote` in `swap.rs`.  The random draws (`adaptor_secret`,
`broker_swap_key`, `quote_id`) and the clock read (`now`) are explicit inputs.
Note that the liquidity check is `can_swap` only: the ledger is read, never
written. -/
def create_quote (cfg : BrokerConfig) (req : SwapRequest)
    (adaptor_secret broker_swap_key : Scalar) (quote_id : String) (now : Nat)
    (st : CoordState) : Except BrokerError (SwapQuote × CoordState) :=
  match validate_swap_request cfg req with
  | .error e => .error e
  | .ok _ =>
    if !(can_swap st.ledger req.to_mint
        (req.amount - quoteFee req.amount cfg.fee_rate)) then
      .error (.InsufficientLiquidity req.to_mint
        (req.amount - quoteFee req.amount cfg.fee_rate)
        (get_balance st.ledger req.to_mint))
    else
      .ok (build_quote cfg req adaptor_secret broker_swap_key quote_id now,
        { st with
          quotes := insertA st.quotes quote_id
            ⟨build_quote cfg req adaptor_secret broker_swap_key quote_id now,
              broker_swap_key, adaptor_secret⟩ })

/-- `compressed_bytes_to_point` in `swap.rs`: reject a byte string that is not
33 bytes, then reject anything that is not the canonical encoding of a group
element. -/
def compressed_bytes_to_point (bs : List Nat) : Except BrokerError GPoint :=
  if bs.length ≠ 33 then
    .error (.AdaptorSignature "Invalid point bytes length")
  else
    let p : GPoint := (bytesToNat bs.tail : Nat)
    if bs.head? = some 2 ∧ pointBytes p = bs then
      .ok p
    else
      .error (.AdaptorSignature "Invalid point bytes")

/-- `prepare_swap` in `swap.rs` (the engine behind `acceptQuote`).  The cdk
wallet's `mint_with_conditions` is the oracle `mint_locked` (amount and lock
pubkey bytes in, proofs or failure out).  Note there is no expiry check and the
ledger is never touched. -/
def prepare_swap (quote_id : String) (client_pubkey : List Nat)
    (mint_locked : Nat → List Nat → Option (List Proof))
    (st : CoordState) : Except BrokerError (List Proof × CoordState) :=
  match lookupA st.quotes quote_id with
  | none => .error (.QuoteNotFound quote_id)
  | some quote_data =>
    if quote_data.quote.status ≠ SwapStatus.Pending then
      .error (.InvalidSwapRequest ("Quote " ++ quote_id ++ " is not pending"))
    else
      match compressed_bytes_to_point client_pubkey with
      | .error e => .error e
      | .ok client_point =>
        match lookupA st.ledger quote_data.quote.to_mint with
        | none => .error (.UnsupportedMint quote_data.quote.to_mint)
        | some _wallet =>
          match mint_locked quote_data.quote.output_amount
              (pointBytes (tweak_public_key client_point
                (pointFromScalar quote_data.adaptor_secret))) with
          | none => .error (.Cdk "Failed to mint P2PK tokens")
          | some proofs =>
            .ok (proofs,
              { st with
                quotes := insertA st.quotes quote_id
                  { quote_data with
                    quote := { quote_data.quote with status := .Accepted } }
                executions := insertA st.executions quote_id
                  ⟨quote_id, [], proofsSerialize proofs, false, false, none⟩ })

/-- `complete_swap` in `swap.rs`.  The cdk wallet's `swap` call is the oracle
`wallet_swap` (total amount and submitted proofs in, fresh proofs or failure
out); the source's combined spending scalar `broker_swap_key + adaptor_secret`
(`add_scalars`) feeds only that wallet call, which the oracle abstracts.
Note: no status check, no expiry check, no witness verification and no
comparison of the submitted total against the quote's `input_amount`; the
summed total is swapped as-is and credited to `from_mint`. -/
def complete_swap (quote_id : String) (client_proofs_with_witness : List Proof)
    (wallet_swap : Nat → List Proof → Option (List Proof)) (now : Nat)
    (st : CoordState) : Except BrokerError CoordState :=
  match lookupA st.quotes quote_id with
  | none => .error (.QuoteNotFound quote_id)
  | some quote_data =>
    match lookupA st.ledger quote_data.quote.from_mint with
    | none => .error (.UnsupportedMint quote_data.quote.from_mint)
    | some _wallet =>
      match wallet_swap (proofsSum client_proofs_with_witness)
          client_proofs_with_witness with
      | none => .error (.Cdk "Failed to swap client tokens")
      | some new_proofs =>
        match add_proofs st.ledger quote_data.quote.from_mint new_proofs now with
        | .error e => .error e
        | .ok ledger' =>
          .ok { quotes := updateA st.quotes quote_id (fun qd =>
                  { qd with quote := { qd.quote with status := .Completed } })
                executions := updateA st.executions quote_id (fun ex =>
                  { ex with
                    client_swap_complete := true
                    broker_swap_complete := true
                    completed_at := some now })
                ledger := ledger' }

/-- The status of a stored quote, if any. -/
def quoteStatus (st : CoordState) (quote_id : String) : Option SwapStatus :=
  (lookupA st.quotes quote_id).map (fun qd => qd.quote.status)

/-- A broker operation: one call of the public operation set, with its random
draws, clock reads and wallet oracles attached. -/
inductive BrokerOp
  | request (cfg : BrokerConfig) (req : SwapRequest) (t x : Scalar)
      (quote_id : String) (now : Nat)
  | accept (quote_id : String) (client_pubkey : List Nat)
      (mint_locked : Nat → List Nat → Option (List Proof))
  | complete (quote_id : String) (proofs : List Proof)
      (wallet_swap : Nat → List Proof → Option (List Proof)) (now : Nat)

/-- The state reached after an operation; a failed operation leaves the state
unchanged (every error path in the source returns before mutating). -/
def stepBroker : BrokerOp → CoordState → CoordState
  | .request cfg req t x quote_id now, st =>
      match create_quote cfg req t x quote_id now st with
      | .ok (_, st') => st'
      | .error _ => st
  | .accept quote_id client_pubkey mint_locked, st =>
      match prepare_swap quote_id client_pubkey mint_locked st with
      | .ok (_, st') => st'
      | .error _ => st
  | .complete quote_id proofs wallet_swap now, st =>
      match complete_swap quote_id proofs wallet_swap now st with
      | .ok st' => st'
      | .error _ => st

/- ## API surface and store records (`api.rs`, `db.rs`) -/

/-- A JSON value as far as the broker's serializations need: strings, integers,
the rational fee rate, and hex-encoded byte strings (kept at byte level). -/
inductive JVal
  | s (v : String)
  | num (v : Nat)
  | rat (v : ℚ)
  | bytes (v : List Nat)
  deriving DecidableEq, Repr

/-- Does a JSON value equal the given byte string? -/
def jvalEqBytes : JVal → List Nat → Bool
  | .bytes v, w => v == w
  | _, _ => false

/-- The serde serialization of `SwapQuote` per its attributes in `types.rs`:
renamed keys, `tweaked_pubkey` omitted when `none`, `adaptor_secret` omitted by
`#[serde(skip_serializing)]`, `expires_at` omitted by `#[serde(skip)]`. -/
def serializeSwapQuote (q : SwapQuote) : List (String × JVal) :=
  [("id", .s q.quote_id),
   ("source_mint", .s q.from_mint),
   ("target_mint", .s q.to_mint),
   ("amount_in", .num q.input_amount),
   ("amount_out", .num q.output_amount),
   ("fee", .num q.fee),
   ("fee_rate", .rat q.fee_rate),
   ("broker_pubkey", .bytes q.broker_public_key),
   ("adaptor_point", .bytes q.adaptor_point)]
  ++ (match q.tweaked_pubkey with
      | some t => [("tweaked_pubkey", .bytes t)]
      | none => [])
  ++ [("expires_in", .num q.expires_in),
      ("status", .s (statusString q.status))]

/-- `QuoteRecord` from `db.rs` (timestamp strings are epoch seconds here; the
hex string columns are hex digit lists). -/
structure QuoteRecord where
  id : String
  source_mint : String
  target_mint : String
  amount_in : Int
  amount_out : Int
  fee : Int
  fee_rate : ℚ
  broker_pubkey : List Nat
  adaptor_point : List Nat
  tweaked_pubkey : List Nat
  status : String
  created_at : Nat
  expires_at : Nat
  user_pubkey : Option String
  deriving DecidableEq, Repr

/-- The `QuoteRecord` the `request_quote` handler in `api.rs` writes to the
store for a freshly created quote. -/
def make_quote_record (q : SwapQuote) (now : Nat) (user_pubkey : Option String) :
    QuoteRecord :=
  { id := q.quote_id
    source_mint := q.from_mint
    target_mint := q.to_mint
    amount_in := (q.input_amount : Int)
    amount_out := (q.output_amount : Int)
    fee := (q.fee : Int)
    fee_rate := q.fee_rate
    broker_pubkey := hexEncode q.broker_public_key
    adaptor_point := hexEncode q.adaptor_point
    tweaked_pubkey := ((q.tweaked_pubkey).map hexEncode).getD []
    status := statusString .Pending
    created_at := now
    expires_at := now + q.expires_in
    user_pubkey }

/-- `AcceptQuoteResponse` from `api.rs`. -/
structure AcceptQuoteResponse where
  encrypted_signature : List Nat
  target_proofs : List Proof
  deriving DecidableEq, Repr

/-- The response body built by the `accept_quote` handler in `api.rs`: the
"encrypted signature" field is a copy of the record's (public, hex-encoded)
adaptor point. -/
def accept_quote_response (record : QuoteRecord) (target_proofs : List Proof) :
    AcceptQuoteResponse :=
  { encrypted_signature := record.adaptor_point, target_proofs }

/-- `CompleteQuoteResponse` from `api.rs`. -/
structure CompleteQuoteResponse where
  adaptor_secret : List Nat
  status : String
  deriving DecidableEq, Repr

/-- The response body built by the `complete_quote` handler in `api.rs`: the
value returned under the name `adaptor_secret` is a copy of the record's
(public, hex-encoded) adaptor point, not the private scalar. -/
def complete_quote_response (record : QuoteRecord) : CompleteQuoteResponse :=
  { adaptor_secret := record.adaptor_point
    status := statusString .Completed }

/-- `SwapRecord` from `db.rs`, restricted to the byte-string columns the
secrecy claim is about. -/
structure SwapRecord where
  id : String
  quote_id : String
  encrypted_signature : Option (List Nat)
  decrypted_signature : Option (List Nat)
  adaptor_secret : Option (List Nat)
  deriving DecidableEq, Repr

/-- The `SwapRecord` the `accept_quote` handler writes: `adaptor_secret` is
`None` at accept time. -/
def make_swap_record (swap_id quote_id : String) (record : QuoteRecord) :
    SwapRecord :=
  { id := swap_id
    quote_id
    encrypted_signature := some record.adaptor_point
    decrypted_signature := none
    adaptor_secret := none }

/-- The update the `complete_quote` handler performs on the swap record via
`db.complete_swap`: `adaptor_secret` is set to the record's hex-encoded
adaptor point. -/
def complete_swap_record (sw : SwapRecord) (decrypted_signature : List Nat)
    (record : QuoteRecord) : SwapRecord :=
  { sw with
    decrypted_signature := some decrypted_signature
    adaptor_secret := some record.adaptor_point }

/- ## Adaptor signature primitives

The broker calls these through thin wrappers in `adaptor.rs`; the
implementation lives in the external `schnorr_fun` crate, so the primitives
are modelled from the spec (§4.1 and the glossary). -/

/-- Modelled from the spec: an encrypted (adaptor) Schnorr signature
`EncSig` — the nonce point `R = r·G + T` and the encrypted scalar `s_hat`. -/
structure EncSig where
  R : GPoint
  s_hat : Scalar
  deriving DecidableEq, Repr

/-- Modelled from the spec: a plain Schnorr signature `(R, s)`. -/
structure Sig where
  R : GPoint
  s : Scalar
  deriving DecidableEq, Repr

/-- Modelled from the spec: `adaptor_sign(signing_key, T, msg)` behind
`create_encrypted_signature` in `adaptor.rs` (the body is in `schnorr_fun`).
`nonce` is the deterministic nonce derivation and `challenge` the Schnorr
challenge hash (of the nonce point, the public key and the domain-separated
message); both are parameters, so the theorems hold for every choice. -/
def create_encrypted_signature
    (challenge : GPoint → GPoint → List Nat → Scalar)
    (signing_key : Scalar) (encryption_point : GPoint) (nonce : Scalar)
    (message : List Nat) : EncSig :=
  let R := pointFromScalar nonce + encryption_point
  let c := challenge R (pointFromScalar signing_key) message
  { R, s_hat := nonce + c * signing_key }

/-- Modelled from the spec: `decrypt(t, enc)` behind `decrypt_signature` in
`adaptor.rs` — complete the encrypted scalar with the adaptor secret. -/
def decrypt_signature (decryption_secret : Scalar) (enc : EncSig) : Sig :=
  { R := enc.R, s := enc.s_hat + decryption_secret }

/-- Modelled from the spec: `recover_adaptor(T, enc, sig)` behind
`recover_adaptor_secret` in `adaptor.rs` — the difference of the decrypted and
encrypted scalars, accepted only if its point is the adaptor point. -/
def recover_adaptor_secret (encryption_point : GPoint) (enc : EncSig)
    (revealed : Sig) : Except BrokerError Scalar :=
  let t := revealed.s - enc.s_hat
  if pointFromScalar t = encryption_point then
    .ok t
  else
    .error (.AdaptorSignature "Failed to recover adaptor secret")

/- ## Association-list lemmas -/

theorem lookupA_insertA_self {α : Type} (l : List (String × α)) (k : String)
    (v : α) : lookupA (insertA l k v) k = some v := by
  induction l with
  | nil => simp [insertA, lookupA]
  | cons hd tl ih =>
    by_cases h : hd.1 = k
    · simp [insertA, lookupA, h]
    · simp [insertA, lookupA, h, ih]

theorem lookupA_insertA_ne {α : Type} (l : List (String × α)) (k k' : String)
    (v : α) (h : k' ≠ k) : lookupA (insertA l k v) k' = lookupA l k' := by
  induction l with
  | nil => simp [insertA, lookupA, Ne.symm h]
  | cons hd tl ih =>
    by_cases hh : hd.1 = k
    · simp [insertA, lookupA, hh, Ne.symm h]
    · simp [insertA, lookupA, hh, ih]

theorem lookupA_updateA_self {α : Type} (l : List (String × α)) (k : String)
    (f : α → α) : lookupA (updateA l k f) k = (lookupA l k).map f := by
  induction l with
  | nil => simp [updateA, lookupA]
  | cons hd tl ih =>
    by_cases h : hd.1 = k
    · simp [updateA, lookupA, h]
    · simp [updateA, lookupA, h, ih]

theorem lookupA_updateA_ne {α : Type} (l : List (String × α)) (k k' : String)
    (f : α → α) (h : k' ≠ k) : lookupA (updateA l k f) k' = lookupA l k' := by
  induction l with
  | nil => simp [updateA, lookupA]
  | cons hd tl ih =>
    by_cases hh : hd.1 = k
    · simp [updateA, lookupA, hh, Ne.symm h]
    · simp [updateA, lookupA, hh, ih]

theorem all_insertA {α : Type} (l : List (String × α)) (k : String) (v : α)
    (q : String × α → Bool) (hl : l.all q = true) (hv : q (k, v) = true) :
    (insertA l k v).all q = true := by
  induction l with
  | nil => simp [insertA, hv]
  | cons hd tl ih =>
    rw [List.all_cons, Bool.and_eq_true] at hl
    by_cases h : hd.1 = k
    · simp [insertA, h, hv, hl.2]
    · simp [insertA, h, hl.1, ih hl.2]

theorem all_updateA {α : Type} (l : List (String × α)) (k : String) (f : α → α)
    (q : String × α → Bool) (hl : l.all q = true)
    (hf : ∀ p : String × α, q p = true → q (p.1, f p.2) = true) :
    (updateA l k f).all q = true := by
  induction l with
  | nil => simp [updateA]
  | cons hd tl ih =>
    rw [List.all_cons, Bool.and_eq_true] at hl
    by_cases h : hd.1 = k
    · have hq := hf hd hl.1
      rw [h] at hq
      simp [updateA, h, hq, hl.2]
    · simp [updateA, h, hl.1, ih hl.2]

theorem get_balance_insertA_self (ledger : Ledger) (url : String)
    (m : MintLiquidity) : get_balance (insertA ledger url m) url = m.balance := by
  simp [get_balance, lookupA_insertA_self]

theorem get_balance_insertA_ne (ledger : Ledger) (url url' : String)
    (m : MintLiquidity) (h : url' ≠ url) :
    get_balance (insertA ledger url m) url' = get_balance ledger url' := by
  simp [get_balance, lookupA_insertA_ne ledger url url' m h]

/- ## Inversion and forward lemmas for the three operations -/

theorem lookupA_all {α : Type} (l : List (String × α)) (p : String × α → Bool)
    (k : String) (v : α) (h1 : l.all p = true) (h2 : lookupA l k = some v) :
    p (k, v) = true := by
  induction l with
  | nil => simp [lookupA] at h2
  | cons hd tl ih =>
    rw [List.all_cons, Bool.and_eq_true] at h1
    by_cases h : hd.1 = k
    · simp [lookupA, h] at h2
      have := h1.1
      rw [show hd = (hd.1, hd.2) from rfl, h, h2] at this
      exact this
    · simp [lookupA, h] at h2
      exact ih h1.2 h2

theorem create_quote_ok (cfg : BrokerConfig) (req : SwapRequest) (t x : Scalar)
    (qid : String) (now : Nat) (st : CoordState) (q : SwapQuote)
    (st' : CoordState) (h : create_quote cfg req t x qid now st = .ok (q, st')) :
    q = build_quote cfg req t x qid now ∧
    st' = { st with quotes := insertA st.quotes qid ⟨q, x, t⟩ } := by
  unfold create_quote at h
  split at h
  · exact absurd h (by simp)
  · split at h
    · exact absurd h (by simp)
    · simp only [Except.ok.injEq, Prod.mk.injEq] at h
      refine ⟨h.1.symm, ?_⟩
      rw [← h.2, ← h.1]

theorem prepare_swap_ok (qid : String) (cpk : List Nat)
    (oracle : Nat → List Nat → Option (List Proof)) (st : CoordState)
    (ps : List Proof) (st' : CoordState)
    (h : prepare_swap qid cpk oracle st = .ok (ps, st')) :
    ∃ qd pt m, lookupA st.quotes qid = some qd ∧
      qd.quote.status = SwapStatus.Pending ∧
      compressed_bytes_to_point cpk = .ok pt ∧
      lookupA st.ledger qd.quote.to_mint = some m ∧
      oracle qd.quote.output_amount
        (pointBytes (tweak_public_key pt (pointFromScalar qd.adaptor_secret)))
        = some ps ∧
      st' = { st with
        quotes := insertA st.quotes qid
          { qd with quote := { qd.quote with status := .Accepted } }
        executions := insertA st.executions qid
          ⟨qid, [], proofsSerialize ps, false, false, none⟩ } := by
  unfold prepare_swap at h
  split at h
  · exact absurd h (by simp)
  · rename_i qd hq
    split at h
    · exact absurd h (by simp)
    · rename_i hpending
      split at h
      · exact absurd h (by simp)
      · rename_i pt hpt
        split at h
        · exact absurd h (by simp)
        · rename_i m hm
          split at h
          · exact absurd h (by simp)
          · rename_i ps0 hps
            simp only [Except.ok.injEq, Prod.mk.injEq] at h
            refine ⟨qd, pt, m, hq, by simpa using hpending, hpt, hm, ?_, ?_⟩
            · rw [← h.1]
              exact hps
            · rw [← h.2, h.1]

theorem complete_swap_ok (qid : String) (ps : List Proof)
    (oracle : Nat → List Proof → Option (List Proof)) (now : Nat)
    (st : CoordState) (st' : CoordState)
    (h : complete_swap qid ps oracle now st = .ok st') :
    ∃ qd m nps, lookupA st.quotes qid = some qd ∧
      lookupA st.ledger qd.quote.from_mint = some m ∧
      oracle (proofsSum ps) ps = some nps ∧
      st' = ⟨updateA st.quotes qid
              (fun qd => { qd with quote := { qd.quote with status := .Completed } }),
            updateA st.executions qid
              (fun ex => { ex with
                client_swap_complete := true
                broker_swap_complete := true
                completed_at := some now }),
            insertA st.ledger qd.quote.from_mint
              { m with
                proofs := m.proofs ++ nps
                balance := m.balance + proofsSum nps
                last_updated := now }⟩ := by
  unfold complete_swap at h
  split at h
  · exact absurd h (by simp)
  · rename_i qd hq
    split at h
    · exact absurd h (by simp)
    · rename_i m hm
      split at h
      · exact absurd h (by simp)
      · rename_i nps hnps
        unfold add_proofs at h
        rw [hm] at h
        simp only [Except.ok.injEq] at h
        exact ⟨qd, m, nps, hq, hm, hnps, h.symm⟩

theorem complete_swap_ok_of (st : CoordState) (qid : String) (qd : QuoteData)
    (ps : List Proof) (oracle : Nat → List Proof → Option (List Proof))
    (now : Nat) (m : MintLiquidity) (nps : List Proof)
    (h1 : lookupA st.quotes qid = some qd)
    (h2 : lookupA st.ledger qd.quote.from_mint = some m)
    (h3 : oracle (proofsSum ps) ps = some nps) :
    complete_swap qid ps oracle now st =
      .ok ⟨updateA st.quotes qid
            (fun qd => { qd with quote := { qd.quote with status := .Completed } }),
          updateA st.executions qid
            (fun ex => { ex with
              client_swap_complete := true
              broker_swap_complete := true
              completed_at := some now }),
          insertA st.ledger qd.quote.from_mint
            { m with
              proofs := m.proofs ++ nps
              balance := m.balance + proofsSum nps
              last_updated := now }⟩ := by
  unfold complete_swap add_proofs
  simp only [h1, h2, h3]

theorem complete_swap_fail_of (st : CoordState) (qid : String) (qd : QuoteData)
    (ps : List Proof) (oracle : Nat → List Proof → Option (List Proof))
    (now : Nat) (m : MintLiquidity)
    (h1 : lookupA st.quotes qid = some qd)
    (h2 : lookupA st.ledger qd.quote.from_mint = some m)
    (h3 : oracle (proofsSum ps) ps = none) :
    complete_swap qid ps oracle now st
      = .error (.Cdk "Failed to swap client tokens") := by
  unfold complete_swap
  simp only [h1, h2, h3]

/- ## Status order and reachability -/

/-- Position of a status along the `Pending → Accepted → Completed` path;
`Expired`/`Failed` (never assigned by any code path of `swap.rs`) sit above. -/
def statusRank : SwapStatus → Nat
  | .Pending => 0
  | .Accepted => 1
  | .Completed => 2
  | .Expired => 3
  | .Failed => 3

/-- The statuses the coordinator can actually assign (`swap.rs` never writes
`Expired` or `Failed`). -/
def statusReachable : SwapStatus → Bool
  | .Expired => false
  | .Failed => false
  | _ => true

/-- Every stored quote has a coordinator-assignable status. -/
def statusesOk (st : CoordState) : Bool :=
  st.quotes.all (fun p => statusReachable p.2.quote.status)

/-- Freshness of the operation's randomly drawn quote id (128-bit random hex in
`generate_quote_id`; collisions would overwrite an existing entry). -/
def opFresh : BrokerOp → CoordState → Bool
  | .request _ _ _ _ quote_id _, st => !(lookupA st.quotes quote_id).isSome
  | _, _ => true

theorem statusRank_le_two (s : SwapStatus) (h : statusReachable s = true) :
    statusRank s ≤ 2 := by
  cases s <;> simp_all [statusReachable, statusRank]

/- ## Byte-level secrecy helpers -/

theorem pointBytes_beq_scalarBytes (p : GPoint) (s : Scalar) :
    (pointBytes p == scalarBytes s) = false := by
  rw [beq_eq_false_iff_ne]
  exact pointBytes_ne_scalarBytes p s

theorem hexEncode_pointBytes_ne_hexEncode_scalarBytes (p : GPoint) (s : Scalar) :
    hexEncode (pointBytes p) ≠ hexEncode (scalarBytes s) := by
  intro h
  have := congrArg List.length h
  rw [hexEncode_length, hexEncode_length, pointBytes_length, scalarBytes_length]
    at this
  exact absurd this (by decide)

/- ## Concrete scenario (spec §8, S1/S2 configuration)

Two mints `"A"` and `"B"`, `fee_rate = 0.005`, `min = 1`, `max = 10000`,
`ttl = 300`, 100 sats of proofs on each mint.  The client swaps 8 sats from
`A` to `B`. -/

def cfgS1 : BrokerConfig :=
  { mints := [⟨"A", "Mint A", "sat"⟩, ⟨"B", "Mint B", "sat"⟩]
    fee_rate := mkRat 1 200
    min_swap_amount := 1
    max_swap_amount := 10000
    quote_expiry_seconds := 300 }

def mintA : MintLiquidity := ⟨"A", 100, [⟨64, 1, 0⟩, ⟨32, 2, 0⟩, ⟨4, 3, 0⟩], 0⟩

def mintB : MintLiquidity := ⟨"B", 100, [⟨64, 4, 0⟩, ⟨32, 5, 0⟩, ⟨4, 6, 0⟩], 0⟩

def ledgerS1 : Ledger := [("A", mintA), ("B", mintB)]

def stS1 : CoordState := ⟨[], [], ledgerS1⟩

def reqS1 : SwapRequest := ⟨"A", "B", 8, none⟩

/-- A mint wallet that honours every `mint_with_conditions` request. -/
def mintLockedOracle : Nat → List Nat → Option (List Proof) :=
  fun amt _ => some [⟨amt, 42, 0⟩]

/-- A mint wallet whose `swap` call accepts any proof set. -/
def walletSwapOracle : Nat → List Proof → Option (List Proof) :=
  fun total _ => some [⟨total, 44, 0⟩]

/-- A mint wallet whose `swap` call fails (network error, rejected witness on
the mint side, ...). -/
def walletSwapFailOracle : Nat → List Proof → Option (List Proof) :=
  fun _ _ => none

/-- The client's compressed public key (discrete log 9 in the model). -/
def clientPubBytes : List Nat := pointBytes 9

/-- S1 after `requestQuote` (adaptor secret 5, broker key 7, id `"q1"`,
requested at time 0). -/
def stReq : CoordState := stepBroker (.request cfgS1 reqS1 5 7 "q1" 0) stS1

/-- S1 after `acceptQuote`. -/
def stAcc : CoordState := stepBroker (.accept "q1" clientPubBytes mintLockedOracle) stReq

/-- S1 after `completeSwap` with the client's 8-sat proof. -/
def stDone : CoordState :=
  stepBroker (.complete "q1" [⟨8, 43, 9⟩] walletSwapOracle 100) stAcc

/-- The S2 ledger: mint `"B"` holds only 5 sats. -/
def stS2 : CoordState := ⟨[], [], [("A", mintA), ("B", ⟨"B", 5, [⟨4, 7, 0⟩, ⟨1, 8, 0⟩], 0⟩)]⟩

/-- The exact binary64 value of the configured rate `0.005`
(`5764607523034235 · 2⁻⁶⁰`), as a broker run holds it in its `f64` config. -/
def rate005 : ℚ := mkRat 5764607523034235 (2 ^ 60)

/-- The S1 configuration with `fee_rate` the exact binary64 value of
`0.005`. -/
def cfgS1f : BrokerConfig :=
  { mints := [⟨"A", "Mint A", "sat"⟩, ⟨"B", "Mint B", "sat"⟩]
    fee_rate := rate005
    min_swap_amount := 1
    max_swap_amount := 10000
    quote_expiry_seconds := 300 }

/-- A fee rate that is exactly representable in binary64 and lies in `[0, 1)`
(`3002399751580331 · 2⁻⁵³ ≈ 0.33333333333333337`): multiplied by the in-range
amount 3 in `f64`, the exact product `1 + 2⁻⁵³` lands on a rounding tie that
resolves downward (ties to even) across the integer boundary. -/
def rateTie : ℚ := mkRat 3002399751580331 (2 ^ 53)

/-- The S1 configuration with `fee_rate = rateTie`. -/
def cfgC8 : BrokerConfig :=
  { mints := [⟨"A", "Mint A", "sat"⟩, ⟨"B", "Mint B", "sat"⟩]
    fee_rate := rateTie
    min_swap_amount := 1
    max_swap_amount := 10000
    quote_expiry_seconds := 300 }

/-- A 3-sat swap request from `"A"` to `"B"`. -/
def reqC8 : SwapRequest := ⟨"A", "B", 3, none⟩

/-- A hand-built Accepted quote (amounts as in S1) for witnessing the
`completeSwap` theorems. -/
def qdAccepted : QuoteData :=
  ⟨{ quote_id := "q1", from_mint := "A", to_mint := "B", input_amount := 8
     output_amount := 7, fee := 1, fee_rate := mkRat 1 200
     broker_public_key := pointBytes 7, adaptor_point := pointBytes 5
     tweaked_pubkey := some (pointBytes 12), adaptor_secret := scalarBytes 5
     expires_in := 300, expires_at := 300, status := .Accepted }, 7, 5⟩

/-- A hand-built Pending quote whose `expires_at` is long past. -/
def qdPendingExpired : QuoteData :=
  ⟨{ quote_id := "q3", from_mint := "A", to_mint := "B", input_amount := 8
     output_amount := 7, fee := 1, fee_rate := mkRat 1 200
     broker_public_key := pointBytes 7, adaptor_point := pointBytes 5
     tweaked_pubkey := some (pointBytes 12), adaptor_secret := scalarBytes 5
     expires_in := 300, expires_at := 5, status := .Pending }, 7, 5⟩

/-- A coordinator state holding the Accepted quote `"q1"`. -/
def stWithAccepted : CoordState :=
  ⟨[("q1", qdAccepted)], [("q1", ⟨"q1", [], [], false, false, none⟩)], ledgerS1⟩

/-- A coordinator state holding an Accepted `"q2"` and an expired Pending
`"q3"`; the id `"zz"` is absent. -/
def stMixed : CoordState :=
  ⟨[("q2", qdAccepted), ("q3", qdPendingExpired)], [], ledgerS1⟩

/- ## Claim theorems -/

/-- C5: adaptor round-trip — for every signing key, message, nonce, challenge
function and adaptor secret `t` with point `T = t·G`, recovering the
decryption key from an `create_encrypted_signature` output and its
`decrypt_signature` counterpart succeeds and returns exactly `t` (never its
negation). -/
theorem recover_adaptor_secret_roundtrip
    (challenge : GPoint → GPoint → List Nat → Scalar) (x t r : Scalar)
    (msg : List Nat) :
    recover_adaptor_secret (pointFromScalar t)
      (create_encrypted_signature challenge x (pointFromScalar t) r msg)
      (decrypt_signature t
        (create_encrypted_signature challenge x (pointFromScalar t) r msg))
      = .ok t := by
  simp [recover_adaptor_secret, decrypt_signature, create_encrypted_signature,
    pointFromScalar]

/-- The exact rational value of `8 · rate005`. -/
theorem rate005_mul_eight :
    (reqS1.amount : ℚ) * cfgS1f.fee_rate = mkRat 5764607523034235 (2 ^ 57) := by
  rw [show cfgS1f.fee_rate = mkRat 5764607523034235 (2 ^ 60) from rfl,
    show reqS1.amount = 8 from rfl,
    Rat.mkRat_eq_divInt, Rat.mkRat_eq_divInt, Rat.divInt_eq_div,
    Rat.divInt_eq_div]
  push_cast
  norm_num

/-- The exact rational value of `3 · rateTie` (which is `1 + 2⁻⁵³`). -/
theorem rateTie_mul_three :
    (reqC8.amount : ℚ) * cfgC8.fee_rate = mkRat 9007199254740993 (2 ^ 53) := by
  rw [show cfgC8.fee_rate = mkRat 3002399751580331 (2 ^ 53) from rfl,
    show reqC8.amount = 3 from rfl,
    Rat.mkRat_eq_divInt, Rat.mkRat_eq_divInt, Rat.divInt_eq_div,
    Rat.divInt_eq_div]
  push_cast
  norm_num

/-- C8 (amended): every quote built by `create_quote` carries the broker's
configured `fee_rate`, and its fee is the ceiling of the BINARY64 product
`fl(fl(amount_in) · fee_rate)`.  Whenever that floating-point computation is
exact (hypotheses `hv`/`hE`, satisfied in particular by S1: `fee_rate` the
binary64 value of `0.005`, `amount_in = 8`, giving `fee = 1`,
`amount_out = 7`), the spec's formula holds exactly:
`fee = ⌈amount_in · fee_rate⌉` and `amount_out = amount_in − fee`.  At
binary64 rates where the rounding crosses an integer boundary, the program's
fee differs from `⌈amount_in · fee_rate⌉` (see the counterexample). -/
theorem quote_fee_formula (cfg : BrokerConfig) (req : SwapRequest)
    (t x : Scalar) (qid : String) (now : Nat) (v : ℚ)
    (h0 : 0 ≤ cfg.fee_rate) (h1 : cfg.fee_rate < 1)
    (hv : (req.amount : ℚ) * cfg.fee_rate = v)
    (hE : fp64mul (fp64ofNat req.amount) cfg.fee_rate = v) :
    (build_quote cfg req t x qid now).fee_rate = cfg.fee_rate
    ∧ (build_quote cfg req t x qid now).input_amount = req.amount
    ∧ ((build_quote cfg req t x qid now).fee : Int)
        = ⌈(req.amount : ℚ) * cfg.fee_rate⌉
    ∧ ((build_quote cfg req t x qid now).output_amount : Int)
        = (req.amount : Int) - ((build_quote cfg req t x qid now).fee : Int) := by
  have hnn : (0 : ℚ) ≤ (req.amount : ℚ) * cfg.fee_rate :=
    mul_nonneg (by positivity) h0
  have hceil_nonneg : 0 ≤ ⌈(req.amount : ℚ) * cfg.fee_rate⌉ :=
    Int.ceil_nonneg hnn
  have hle : (req.amount : ℚ) * cfg.fee_rate ≤ (req.amount : ℚ) := by
    calc (req.amount : ℚ) * cfg.fee_rate
        ≤ (req.amount : ℚ) * 1 := by
          exact mul_le_mul_of_nonneg_left h1.le (by positivity)
      _ = (req.amount : ℚ) := mul_one _
  have hceil_le : ⌈(req.amount : ℚ) * cfg.fee_rate⌉ ≤ (req.amount : Int) := by
    rw [Int.ceil_le]
    push_cast
    exact hle
  have hfee : (build_quote cfg req t x qid now).fee
      = (⌈(req.amount : ℚ) * cfg.fee_rate⌉).toNat := by
    show quoteFee req.amount cfg.fee_rate
      = (⌈(req.amount : ℚ) * cfg.fee_rate⌉).toNat
    unfold quoteFee
    rw [hE, ratCeil_eq_ceil, ← hv]
  have hfee' : ((build_quote cfg req t x qid now).fee : Int)
      = ⌈(req.amount : ℚ) * cfg.fee_rate⌉ := by
    rw [hfee, Int.toNat_of_nonneg hceil_nonneg]
  have hfee_le : (build_quote cfg req t x qid now).fee ≤ req.amount := by
    have := hfee' ▸ hceil_le
    exact_mod_cast this
  refine ⟨rfl, rfl, hfee', ?_⟩
  have hout : (build_quote cfg req t x qid now).output_amount
      = req.amount - (build_quote cfg req t x qid now).fee := rfl
  rw [hout]
  push_cast [Nat.cast_sub hfee_le]
  ring

/-- C8 witness: the S1 configuration with `fee_rate` the binary64 value of
`0.005` and `amount_in = 8` — the `f64` computation is exact there, the fee
is 1, the output 7, and the exact ceiling formula holds. -/
theorem quote_fee_formula_witness :
    (0 : ℚ) ≤ cfgS1f.fee_rate ∧ cfgS1f.fee_rate < 1
    ∧ (reqS1.amount : ℚ) * cfgS1f.fee_rate = mkRat 5764607523034235 (2 ^ 57)
    ∧ fp64mul (fp64ofNat reqS1.amount) cfgS1f.fee_rate
        = mkRat 5764607523034235 (2 ^ 57)
    ∧ (build_quote cfgS1f reqS1 5 7 "q1" 0).fee = 1
    ∧ (build_quote cfgS1f reqS1 5 7 "q1" 0).output_amount = 7
    ∧ ((build_quote cfgS1f reqS1 5 7 "q1" 0).fee : Int)
        = ⌈(reqS1.amount : ℚ) * cfgS1f.fee_rate⌉ :=
  ⟨by decide, by decide, rate005_mul_eight, by decide, by decide, by decide,
    (quote_fee_formula cfgS1f reqS1 5 7 "q1" 0 (mkRat 5764607523034235 (2 ^ 57))
      (by decide) (by decide) rate005_mul_eight (by decide)).2.2.1⟩

/-- C8 counterexample: at the binary64-representable fee rate
`rateTie = 3002399751580331 · 2⁻⁵³ ∈ [0, 1)` and the in-range
`amount_in = 3`, the `f64` product `3.0 * fee_rate` is exactly `1 + 2⁻⁵³`,
which rounds (tie to even) down to `1.0`, so the program computes
`fee = ceil(1.0) = 1` — while `⌈amount_in · fee_rate⌉ = 2`.  The claimed
formula is therefore false of the program on a valid configuration. -/
theorem quote_fee_f64_rounding_cex :
    (0 : ℚ) ≤ cfgC8.fee_rate
    ∧ cfgC8.fee_rate < 1
    ∧ (create_quote cfgC8 reqC8 5 7 "q1" 0 stS1).isOk = true
    ∧ (build_quote cfgC8 reqC8 5 7 "q1" 0).fee = 1
    ∧ ⌈(reqC8.amount : ℚ) * cfgC8.fee_rate⌉ = 2
    ∧ ¬(((build_quote cfgC8 reqC8 5 7 "q1" 0).fee : Int)
        = ⌈(reqC8.amount : ℚ) * cfgC8.fee_rate⌉) := by
  have h2 : ⌈(reqC8.amount : ℚ) * cfgC8.fee_rate⌉ = 2 := by
    rw [rateTie_mul_three, ← ratCeil_eq_ceil]
    decide
  have h1 : (build_quote cfgC8 reqC8 5 7 "q1" 0).fee = 1 := by decide
  refine ⟨by decide, by decide, by decide, h1, h2, ?_⟩
  rw [h1, h2]
  decide

/-- C10: for a configured mint, `remove_proofs` retains exactly the held
proofs whose secret is not among the argument proofs' secrets and lowers the
balance by the argument total, saturating at zero (never underflowing, even
when unheld proofs are passed); other mints are untouched; for an
unconfigured mint it returns `UnsupportedMint` and produces no new ledger. -/
theorem remove_proofs_spec (ledger : Ledger) (ps : List Proof)
    (url₁ url₂ url₃ : String) (m : MintLiquidity) (now : Nat)
    (h1 : lookupA ledger url₁ = some m) (h2 : lookupA ledger url₂ = none)
    (h3 : url₃ ≠ url₁) :
    remove_proofs ledger url₁ ps now = .ok (insertA ledger url₁
      { m with
        proofs := m.proofs.filter
          (fun p => !((ps.map Proof.secret).contains p.secret))
        balance := m.balance - proofsSum ps
        last_updated := now })
    ∧ get_balance (insertA ledger url₁
        { m with
          proofs := m.proofs.filter
            (fun p => !((ps.map Proof.secret).contains p.secret))
          balance := m.balance - proofsSum ps
          last_updated := now }) url₁ = m.balance - proofsSum ps
    ∧ (m.balance - proofsSum ps) + min (proofsSum ps) m.balance = m.balance
    ∧ get_balance (insertA ledger url₁
        { m with
          proofs := m.proofs.filter
            (fun p => !((ps.map Proof.secret).contains p.secret))
          balance := m.balance - proofsSum ps
          last_updated := now }) url₃ = get_balance ledger url₃
    ∧ remove_proofs ledger url₂ ps now = .error (.UnsupportedMint url₂) := by
  refine ⟨?_, ?_, ?_, ?_, ?_⟩
  · unfold remove_proofs
    simp only [h1]
  · exact get_balance_insertA_self ledger url₁ _
  · omega
  · exact get_balance_insertA_ne ledger url₁ url₃ _ h3
  · unfold remove_proofs
    simp only [h2]

/-- C10 witness: removing one held proof (secret 1, 64 sats) together with an
unheld 500-sat proof from mint `"A"` (balance 100) keeps exactly the other
proofs and saturates the balance at zero; mint `"Z"` is unconfigured. -/
theorem remove_proofs_spec_witness :
    lookupA ledgerS1 "A" = some mintA
    ∧ lookupA ledgerS1 "Z" = none
    ∧ ("B" : String) ≠ "A"
    ∧ remove_proofs ledgerS1 "A" [⟨64, 1, 0⟩, ⟨500, 9, 0⟩] 5 = .ok (insertA ledgerS1 "A"
        { mintA with
          proofs := mintA.proofs.filter
            (fun p => !((([⟨64, 1, 0⟩, ⟨500, 9, 0⟩] : List Proof).map Proof.secret).contains p.secret))
          balance := mintA.balance - proofsSum [⟨64, 1, 0⟩, ⟨500, 9, 0⟩]
          last_updated := 5 })
    ∧ mintA.balance - proofsSum [⟨64, 1, 0⟩, ⟨500, 9, 0⟩] = 0 :=
  ⟨by decide, by decide, by decide,
    (remove_proofs_spec ledgerS1 [⟨64, 1, 0⟩, ⟨500, 9, 0⟩] "A" "Z" "B" mintA 5
      (by decide) (by decide) (by decide)).1, by decide⟩

/-- C3: the private scalars never appear in any external representation — the
serde serialization of a freshly built `SwapQuote` has no `adaptor_secret` key
and no value equal to either scalar's byte encoding; the stored
`QuoteRecord`'s hex columns differ from both scalars' hex encodings; the
`accept_quote` response's `encrypted_signature`, the `complete_quote`
response's `adaptor_secret` and the completed `SwapRecord`'s `adaptor_secret`
column all carry the (public) hex-encoded adaptor point, never the hex
encoding of a private scalar. -/
theorem private_scalars_never_serialized (cfg : BrokerConfig)
    (req : SwapRequest) (t x : Scalar) (qid : String) (now nowr : Nat)
    (upk : Option String) (tps : List Proof) (sw : SwapRecord)
    (dsig : List Nat) :
    ((serializeSwapQuote (build_quote cfg req t x qid now)).all
        (fun kv => kv.1 != "adaptor_secret")) = true
    ∧ ((serializeSwapQuote (build_quote cfg req t x qid now)).all
        (fun kv => !(jvalEqBytes kv.2 (scalarBytes t)
            || jvalEqBytes kv.2 (scalarBytes x)))) = true
    ∧ (make_quote_record (build_quote cfg req t x qid now) nowr upk).broker_pubkey
        ≠ hexEncode (scalarBytes t)
    ∧ (make_quote_record (build_quote cfg req t x qid now) nowr upk).broker_pubkey
        ≠ hexEncode (scalarBytes x)
    ∧ (make_quote_record (build_quote cfg req t x qid now) nowr upk).adaptor_point
        ≠ hexEncode (scalarBytes t)
    ∧ (make_quote_record (build_quote cfg req t x qid now) nowr upk).adaptor_point
        ≠ hexEncode (scalarBytes x)
    ∧ (make_quote_record (build_quote cfg req t x qid now) nowr upk).tweaked_pubkey
        ≠ hexEncode (scalarBytes t)
    ∧ (make_quote_record (build_quote cfg req t x qid now) nowr upk).tweaked_pubkey
        ≠ hexEncode (scalarBytes x)
    ∧ (accept_quote_response (make_quote_record (build_quote cfg req t x qid now) nowr upk)
        tps).encrypted_signature ≠ hexEncode (scalarBytes t)
    ∧ (accept_quote_response (make_quote_record (build_quote cfg req t x qid now) nowr upk)
        tps).encrypted_signature ≠ hexEncode (scalarBytes x)
    ∧ (complete_quote_response (make_quote_record (build_quote cfg req t x qid now) nowr upk)).adaptor_secret
        ≠ hexEncode (scalarBytes t)
    ∧ (complete_quote_response (make_quote_record (build_quote cfg req t x qid now) nowr upk)).adaptor_secret
        ≠ hexEncode (scalarBytes x)
    ∧ (complete_swap_record sw dsig (make_quote_record (build_quote cfg req t x qid now) nowr upk)).adaptor_secret
        ≠ some (hexEncode (scalarBytes t))
    ∧ (complete_swap_record sw dsig (make_quote_record (build_quote cfg req t x qid now) nowr upk)).adaptor_secret
        ≠ some (hexEncode (scalarBytes x)) := by
  refine ⟨?_, ?_, ?_, ?_, ?_, ?_, ?_, ?_, ?_, ?_, ?_, ?_, ?_, ?_⟩
  · simp [serializeSwapQuote, build_quote]
  · simp [serializeSwapQuote, build_quote, jvalEqBytes, pointBytes_beq_scalarBytes]
  · simpa [make_quote_record, build_quote] using
      hexEncode_pointBytes_ne_hexEncode_scalarBytes (pointFromScalar x) t
  · simpa [make_quote_record, build_quote] using
      hexEncode_pointBytes_ne_hexEncode_scalarBytes (pointFromScalar x) x
  · simpa [make_quote_record, build_quote] using
      hexEncode_pointBytes_ne_hexEncode_scalarBytes (pointFromScalar t) t
  · simpa [make_quote_record, build_quote] using
      hexEncode_pointBytes_ne_hexEncode_scalarBytes (pointFromScalar t) x
  · simpa [make_quote_record, build_quote] using
      hexEncode_pointBytes_ne_hexEncode_scalarBytes
        (pointFromScalar x + pointFromScalar t) t
  · simpa [make_quote_record, build_quote] using
      hexEncode_pointBytes_ne_hexEncode_scalarBytes
        (pointFromScalar x + pointFromScalar t) x
  · simpa [accept_quote_response, make_quote_record, build_quote] using
      hexEncode_pointBytes_ne_hexEncode_scalarBytes (pointFromScalar t) t
  · simpa [accept_quote_response, make_quote_record, build_quote] using
      hexEncode_pointBytes_ne_hexEncode_scalarBytes (pointFromScalar t) x
  · simpa [complete_quote_response, make_quote_record, build_quote] using
      hexEncode_pointBytes_ne_hexEncode_scalarBytes (pointFromScalar t) t
  · simpa [complete_quote_response, make_quote_record, build_quote] using
      hexEncode_pointBytes_ne_hexEncode_scalarBytes (pointFromScalar t) x
  · simp only [complete_swap_record, make_quote_record, build_quote]
    intro h
    exact hexEncode_pointBytes_ne_hexEncode_scalarBytes (pointFromScalar t) t
      (Option.some.inj h)
  · simp only [complete_swap_record, make_quote_record, build_quote]
    intro h
    exact hexEncode_pointBytes_ne_hexEncode_scalarBytes (pointFromScalar t) x
      (Option.some.inj h)

/-- C1 (amended): `requestQuote` holds no reservation — `create_quote` never
mutates the liquidity ledger (on success exactly as on failure), so nothing
moves from available to a reserved pool (the ledger tracks no reserved
component at all); the pre-quote check is `can_swap` (a balance read), and
when it fails the request is rejected with `InsufficientLiquidity` carrying
the needed and available amounts. -/
theorem create_quote_no_reservation (cfg : BrokerConfig) (req : SwapRequest)
    (t x : Scalar) (qid : String) (now : Nat) (st₁ st₂ : CoordState)
    (hval : validate_swap_request cfg req = .ok ())
    (hcan : can_swap st₂.ledger req.to_mint
      (req.amount - quoteFee req.amount cfg.fee_rate) = false) :
    (stepBroker (.request cfg req t x qid now) st₁).ledger = st₁.ledger
    ∧ create_quote cfg req t x qid now st₂
      = .error (.InsufficientLiquidity req.to_mint
          (req.amount - quoteFee req.amount cfg.fee_rate)
          (get_balance st₂.ledger req.to_mint)) := by
  constructor
  · cases h : create_quote cfg req t x qid now st₁ with
    | error e => simp [stepBroker, h]
    | ok out =>
      obtain ⟨q, st'⟩ := out
      simp [stepBroker, h, (create_quote_ok cfg req t x qid now st₁ q st' h).2]
  · unfold create_quote
    simp only [hval, hcan, Bool.not_false, if_true]

/-- C1 witness: the S1 request succeeds without touching the ledger; on the
S2 ledger (5 sats on `"B"`) the same request is rejected with
`InsufficientLiquidity {needed := 7, available := 5}`. -/
theorem create_quote_no_reservation_witness :
    validate_swap_request cfgS1 reqS1 = .ok ()
    ∧ can_swap stS2.ledger reqS1.to_mint
        (reqS1.amount - quoteFee reqS1.amount cfgS1.fee_rate) = false
    ∧ (stepBroker (.request cfgS1 reqS1 5 7 "q1" 0) stS1).ledger = stS1.ledger
    ∧ create_quote cfgS1 reqS1 5 7 "q1" 0 stS2
        = .error (.InsufficientLiquidity "B" 7 5) :=
  ⟨by decide, by decide,
    (create_quote_no_reservation cfgS1 reqS1 5 7 "q1" 0 stS1 stS2
      (by decide) (by decide)).1, by decide⟩

/-- C1 counterexample: after the successful S1 `requestQuote` of 8 sats
(`amount_out = 7`) a Pending quote exists, yet the available balance on the
target mint `"B"` is still 100 — `amount_out` was not moved out of available,
so no reservation is held for the Pending quote. -/
theorem create_quote_no_reservation_cex :
    (create_quote cfgS1 reqS1 5 7 "q1" 0 stS1).isOk = true
    ∧ quoteStatus stReq "q1" = some .Pending
    ∧ get_balance stReq.ledger "B" = 100
    ∧ ¬(get_balance stReq.ledger "B" = 100 - 7) :=
  ⟨by decide, by decide, by decide, by decide⟩

/-- C2 (amended): `complete_swap` performs no broker-side witness
verification — the submitted proofs go straight to the from-mint wallet call
(`BrokerError` has no InvalidWitness variant).  When the wallet call fails,
the call returns a `Cdk` error and the state is unchanged, so the quote keeps
its status and the client may retry; a retry whose wallet call succeeds
completes the quote. -/
theorem complete_swap_no_witness_check (st : CoordState) (qid : String)
    (qd : QuoteData) (ps : List Proof) (now now' : Nat) (m : MintLiquidity)
    (nps : List Proof)
    (wfail wok : Nat → List Proof → Option (List Proof))
    (h1 : lookupA st.quotes qid = some qd)
    (h2 : lookupA st.ledger qd.quote.from_mint = some m)
    (hfail : wfail (proofsSum ps) ps = none)
    (hok : wok (proofsSum ps) ps = some nps) :
    complete_swap qid ps wfail now st = .error (.Cdk "Failed to swap client tokens")
    ∧ stepBroker (.complete qid ps wfail now) st = st
    ∧ (complete_swap qid ps wok now' st).isOk = true
    ∧ quoteStatus (stepBroker (.complete qid ps wok now') st) qid
        = some .Completed := by
  have he := complete_swap_fail_of st qid qd ps wfail now m h1 h2 hfail
  have hs := complete_swap_ok_of st qid qd ps wok now' m nps h1 h2 hok
  refine ⟨he, ?_, ?_, ?_⟩
  · simp [stepBroker, he]
  · rw [hs]; rfl
  · simp [stepBroker, hs, quoteStatus, lookupA_updateA_self, h1]

/-- C2 witness: on a state holding an Accepted 8-sat quote, a failing wallet
leaves the state unchanged with a `Cdk` error, and the retry with an
accepting wallet completes the quote. -/
theorem complete_swap_no_witness_check_witness :
    lookupA stWithAccepted.quotes "q1" = some qdAccepted
    ∧ lookupA stWithAccepted.ledger qdAccepted.quote.from_mint = some mintA
    ∧ walletSwapFailOracle (proofsSum [⟨8, 43, 999⟩]) [⟨8, 43, 999⟩] = none
    ∧ walletSwapOracle (proofsSum [⟨8, 43, 999⟩]) [⟨8, 43, 999⟩] = some [⟨8, 44, 0⟩]
    ∧ complete_swap "q1" [⟨8, 43, 999⟩] walletSwapFailOracle 50 stWithAccepted
        = .error (.Cdk "Failed to swap client tokens")
    ∧ quoteStatus (stepBroker (.complete "q1" [⟨8, 43, 999⟩] walletSwapOracle 60) stWithAccepted) "q1"
        = some .Completed :=
  ⟨by decide, by decide, by decide, by decide,
    (complete_swap_no_witness_check stWithAccepted "q1" qdAccepted [⟨8, 43, 999⟩]
      50 60 mintA [⟨8, 44, 0⟩] walletSwapFailOracle walletSwapOracle
      (by decide) (by decide) (by decide) (by decide)).1,
    (complete_swap_no_witness_check stWithAccepted "q1" qdAccepted [⟨8, 43, 999⟩]
      50 60 mintA [⟨8, 44, 0⟩] walletSwapFailOracle walletSwapOracle
      (by decide) (by decide) (by decide) (by decide)).2.2.2⟩

/-- C2 counterexample: a `completeSwap` whose proofs carry a garbage witness
value (999) succeeds and completes the quote instead of returning an
InvalidWitness error, and the result is bit-for-bit the one obtained with a
different witness value — no broker-side witness check exists. -/
theorem complete_swap_tampered_witness_cex :
    (complete_swap "q1" [⟨8, 50, 999⟩] walletSwapOracle 100 stWithAccepted).isOk = true
    ∧ quoteStatus (stepBroker (.complete "q1" [⟨8, 50, 999⟩] walletSwapOracle 100) stWithAccepted) "q1"
        = some .Completed
    ∧ complete_swap "q1" [⟨8, 50, 999⟩] walletSwapOracle 100 stWithAccepted
        = complete_swap "q1" [⟨8, 50, 0⟩] walletSwapOracle 100 stWithAccepted :=
  ⟨by decide, by decide, by decide⟩

/-- C6 (amended): `prepare_swap` (acceptQuote) rejects a missing quote with
`QuoteNotFound` and a non-Pending quote with `InvalidSwapRequest` (the code's
variant where the spec names InvalidState), each before any mutation; but it
performs no expiry check — it never reads the clock and never returns
`QuoteExpired` — so a Pending quote whose `expires_at` lies arbitrarily far in
the past is accepted normally. -/
theorem prepare_swap_rejections (st : CoordState) (qid₁ qid₂ qid₃ : String)
    (cpk : List Nat) (oracle : Nat → List Nat → Option (List Proof))
    (qd₂ qd₃ : QuoteData) (pt : GPoint) (m : MintLiquidity) (ps : List Proof)
    (h1 : lookupA st.quotes qid₁ = none)
    (h2 : lookupA st.quotes qid₂ = some qd₂)
    (h2s : qd₂.quote.status ≠ .Pending)
    (h3 : lookupA st.quotes qid₃ = some qd₃)
    (h3s : qd₃.quote.status = .Pending)
    (hpt : compressed_bytes_to_point cpk = .ok pt)
    (hm : lookupA st.ledger qd₃.quote.to_mint = some m)
    (hmint : oracle qd₃.quote.output_amount
      (pointBytes (tweak_public_key pt (pointFromScalar qd₃.adaptor_secret)))
      = some ps) :
    prepare_swap qid₁ cpk oracle st = .error (.QuoteNotFound qid₁)
    ∧ prepare_swap qid₂ cpk oracle st
        = .error (.InvalidSwapRequest ("Quote " ++ qid₂ ++ " is not pending"))
    ∧ (prepare_swap qid₃ cpk oracle st).isOk = true := by
  refine ⟨?_, ?_, ?_⟩
  · unfold prepare_swap
    simp only [h1]
  · unfold prepare_swap
    simp only [h2, h2s, ne_eq, not_false_eq_true, if_true]
  · unfold prepare_swap
    simp only [h3, h3s, hpt, hm, hmint, ne_eq, not_true_eq_false, if_false]
    rfl

/-- C6 witness: on `stMixed`, the absent id `"zz"` yields QuoteNotFound, the
Accepted `"q2"` yields the not-pending rejection, and the long-expired Pending
`"q3"` (expires_at = 5) is accepted. -/
theorem prepare_swap_rejections_witness :
    lookupA stMixed.quotes "zz" = none
    ∧ lookupA stMixed.quotes "q2" = some qdAccepted
    ∧ qdAccepted.quote.status ≠ SwapStatus.Pending
    ∧ lookupA stMixed.quotes "q3" = some qdPendingExpired
    ∧ qdPendingExpired.quote.status = SwapStatus.Pending
    ∧ compressed_bytes_to_point clientPubBytes = .ok 9
    ∧ prepare_swap "zz" clientPubBytes mintLockedOracle stMixed
        = .error (.QuoteNotFound "zz")
    ∧ prepare_swap "q2" clientPubBytes mintLockedOracle stMixed
        = .error (.InvalidSwapRequest ("Quote " ++ "q2" ++ " is not pending"))
    ∧ (prepare_swap "q3" clientPubBytes mintLockedOracle stMixed).isOk = true :=
  ⟨by decide, by decide, by decide, by decide, by decide, by decide,
    (prepare_swap_rejections stMixed "zz" "q2" "q3" clientPubBytes
      mintLockedOracle qdAccepted qdPendingExpired 9 mintB [⟨7, 42, 0⟩]
      (by decide) (by decide) (by decide) (by decide) (by decide) (by decide)
      (by decide) (by decide)).1,
    (prepare_swap_rejections stMixed "zz" "q2" "q3" clientPubBytes
      mintLockedOracle qdAccepted qdPendingExpired 9 mintB [⟨7, 42, 0⟩]
      (by decide) (by decide) (by decide) (by decide) (by decide) (by decide)
      (by decide) (by decide)).2.1,
    (prepare_swap_rejections stMixed "zz" "q2" "q3" clientPubBytes
      mintLockedOracle qdAccepted qdPendingExpired 9 mintB [⟨7, 42, 0⟩]
      (by decide) (by decide) (by decide) (by decide) (by decide) (by decide)
      (by decide) (by decide)).2.2⟩

/-- C6 counterexample: the S1 quote expires at time 300, yet at any later
time (say 1000) `acceptQuote` still succeeds — `prepare_swap` takes no clock
and returns `QuoteExpired` on no path, where the claim demands a
`QuoteExpired` rejection of every expired quote. -/
theorem prepare_swap_no_expiry_cex :
    quoteStatus stReq "q1" = some .Pending
    ∧ (lookupA stReq.quotes "q1").map (fun qd => qd.quote.expires_at) = some 300
    ∧ 300 < 1000
    ∧ (prepare_swap "q1" clientPubBytes mintLockedOracle stReq).isOk = true
    ∧ prepare_swap "q1" clientPubBytes mintLockedOracle stReq
        ≠ .error (.QuoteExpired "q1") :=
  ⟨by decide, by decide, by decide, by decide, by decide⟩

/-- C7 (amended): `complete_swap` never compares the submitted proof total
with the quote's `amount_in` — `BrokerError` has no AmountMismatch variant —
and proceeds to the mint swap for any submitted total whenever the wallet
call succeeds, completing the quote. -/
theorem complete_swap_no_amount_check (st : CoordState) (qid : String)
    (qd : QuoteData) (ps : List Proof)
    (oracle : Nat → List Proof → Option (List Proof)) (now : Nat)
    (m : MintLiquidity) (nps : List Proof)
    (h1 : lookupA st.quotes qid = some qd)
    (h2 : lookupA st.ledger qd.quote.from_mint = some m)
    (h3 : oracle (proofsSum ps) ps = some nps) :
    (complete_swap qid ps oracle now st).isOk = true
    ∧ quoteStatus (stepBroker (.complete qid ps oracle now) st) qid
        = some .Completed := by
  have hs := complete_swap_ok_of st qid qd ps oracle now m nps h1 h2 h3
  constructor
  · rw [hs]; rfl
  · simp [stepBroker, hs, quoteStatus, lookupA_updateA_self, h1]

/-- C7 witness: a 5-sat proof set completes an 8-sat quote. -/
theorem complete_swap_no_amount_check_witness :
    lookupA stWithAccepted.quotes "q1" = some qdAccepted
    ∧ qdAccepted.quote.input_amount = 8
    ∧ proofsSum [⟨5, 50, 0⟩] = 5
    ∧ (complete_swap "q1" [⟨5, 50, 0⟩] walletSwapOracle 100 stWithAccepted).isOk = true :=
  ⟨by decide, by decide, by decide,
    (complete_swap_no_amount_check stWithAccepted "q1" qdAccepted [⟨5, 50, 0⟩]
      walletSwapOracle 100 mintA [⟨5, 44, 0⟩]
      (by decide) (by decide) (by decide)).1⟩

/-- C7 counterexample: submitting proofs totalling 5 against a quote with
`amount_in = 8` does not fail with AmountMismatch — it succeeds and the quote
completes. -/
theorem complete_swap_amount_mismatch_cex :
    (lookupA stWithAccepted.quotes "q1").map (fun qd => qd.quote.input_amount)
        = some 8
    ∧ proofsSum [⟨5, 50, 0⟩] ≠ 8
    ∧ (complete_swap "q1" [⟨5, 50, 0⟩] walletSwapOracle 100 stWithAccepted).isOk = true
    ∧ quoteStatus (stepBroker (.complete "q1" [⟨5, 50, 0⟩] walletSwapOracle 100) stWithAccepted) "q1"
        = some .Completed :=
  ⟨by decide, by decide, by decide, by decide⟩

/-- C9 (amended): a successful `completeSwap` raises the `from_mint` balance
by the total of the freshly swapped proofs, but leaves the `to_mint` balance
unchanged — the proofs handed to the client in `prepare_swap` are freshly
minted via `mint_with_conditions` and never deducted from the ledger.  In S1
the final ledger is A = 108, B = 100 (not 93; see the counterexample). -/
theorem complete_swap_ledger_effect (st : CoordState) (qid : String)
    (qd : QuoteData) (ps : List Proof)
    (oracle : Nat → List Proof → Option (List Proof)) (now : Nat)
    (m : MintLiquidity) (nps : List Proof)
    (h1 : lookupA st.quotes qid = some qd)
    (h2 : lookupA st.ledger qd.quote.from_mint = some m)
    (h3 : oracle (proofsSum ps) ps = some nps)
    (hne : qd.quote.to_mint ≠ qd.quote.from_mint) :
    get_balance (stepBroker (.complete qid ps oracle now) st).ledger
        qd.quote.to_mint = get_balance st.ledger qd.quote.to_mint
    ∧ get_balance (stepBroker (.complete qid ps oracle now) st).ledger
        qd.quote.from_mint
      = get_balance st.ledger qd.quote.from_mint + proofsSum nps := by
  have hs := complete_swap_ok_of st qid qd ps oracle now m nps h1 h2 h3
  constructor
  · simp only [stepBroker, hs]
    exact get_balance_insertA_ne st.ledger qd.quote.from_mint qd.quote.to_mint _ hne
  · simp only [stepBroker, hs]
    rw [get_balance_insertA_self]
    simp [get_balance, h2]

/-- C9 witness: completing the Accepted 8-sat quote credits `"A"` with the
swapped 8 sats and leaves `"B"` at its prior balance. -/
theorem complete_swap_ledger_effect_witness :
    lookupA stWithAccepted.quotes "q1" = some qdAccepted
    ∧ qdAccepted.quote.to_mint ≠ qdAccepted.quote.from_mint
    ∧ get_balance (stepBroker (.complete "q1" [⟨8, 43, 0⟩] walletSwapOracle 100) stWithAccepted).ledger
        qdAccepted.quote.to_mint = get_balance stWithAccepted.ledger qdAccepted.quote.to_mint :=
  ⟨by decide, by decide,
    (complete_swap_ledger_effect stWithAccepted "q1" qdAccepted [⟨8, 43, 0⟩]
      walletSwapOracle 100 mintA [⟨8, 44, 0⟩]
      (by decide) (by decide) (by decide) (by decide)).1⟩

/-- C9 counterexample: running the whole S1 scenario (100 sats on each mint,
`amount_in = 8`, `amount_out = 7`) ends Completed with ledger A = 108 and
B = 100 — not B = 93 as the claim requires, because the broker's `"B"`
holdings are never debited. -/
theorem s1_final_ledger_cex :
    quoteStatus stDone "q1" = some .Completed
    ∧ get_balance stDone.ledger "A" = 108
    ∧ get_balance stDone.ledger "B" = 100
    ∧ ¬(get_balance stDone.ledger "B" = 93) :=
  ⟨by decide, by decide, by decide, by decide⟩

theorem statusesOk_rank (st : CoordState) (qid : String) (s : SwapStatus)
    (hok : statusesOk st = true) (hq : quoteStatus st qid = some s) :
    statusRank s ≤ 2 := by
  unfold quoteStatus at hq
  cases hl : lookupA st.quotes qid with
  | none => rw [hl] at hq; simp at hq
  | some qd =>
    rw [hl] at hq
    have hqs : qd.quote.status = s := by simpa using hq
    have hmem := lookupA_all st.quotes
      (fun p => statusReachable p.2.quote.status) qid qd hok hl
    have := statusRank_le_two qd.quote.status (by simpa using hmem)
    rwa [hqs] at this

/-- C4 (amended): quote statuses only move forward along
`Pending (0) → Accepted (1) → Completed (2)`: any operation applied to a
state whose statuses are coordinator-assignable — with a fresh id for
`requestQuote` — yields such a state again, and every stored quote's status
rank never decreases (so Completed, the only terminal status the code writes,
is never left).  The claim's requirement that `completeSwap` act only on
Accepted quotes is enforced by the HTTP handler against the database record
only: `complete_swap` itself checks no status (see the counterexample). -/
theorem swap_status_monotone (op : BrokerOp) (st : CoordState) (qid : String)
    (s₀ : SwapStatus) (hok : statusesOk st = true) (hf : opFresh op st = true)
    (hq : quoteStatus st qid = some s₀) :
    statusesOk (stepBroker op st) = true
    ∧ ∃ s₁, quoteStatus (stepBroker op st) qid = some s₁
        ∧ statusRank s₀ ≤ statusRank s₁ ∧ statusRank s₁ ≤ 2 := by
  have hrank0 := statusesOk_rank st qid s₀ hok hq
  cases op with
  | request cfg req t x qid' now =>
    cases h : create_quote cfg req t x qid' now st with
    | error e =>
      exact ⟨by simpa [stepBroker, h] using hok,
        s₀, by simpa [stepBroker, h] using hq, le_refl _, hrank0⟩
    | ok out =>
      obtain ⟨q, st'⟩ := out
      obtain ⟨hquote, hst⟩ := create_quote_ok cfg req t x qid' now st q st' h
      have hfresh : lookupA st.quotes qid' = none := by
        simp only [opFresh, Bool.not_eq_true'] at hf
        cases hl : lookupA st.quotes qid' with
        | none => rfl
        | some v => rw [hl] at hf; simp at hf
      have hne : qid ≠ qid' := by
        intro he
        rw [he] at hq
        unfold quoteStatus at hq
        rw [hfresh] at hq
        simp at hq
      constructor
      · simp only [stepBroker, h, hst]
        exact all_insertA _ _ _ _ hok (by rw [hquote]; rfl)
      · refine ⟨s₀, ?_, le_refl _, hrank0⟩
        simp only [stepBroker, h, hst]
        unfold quoteStatus at hq ⊢
        simpa [lookupA_insertA_ne st.quotes qid' qid _ hne] using hq
  | accept qid' cpk orc =>
    cases h : prepare_swap qid' cpk orc st with
    | error e =>
      exact ⟨by simpa [stepBroker, h] using hok,
        s₀, by simpa [stepBroker, h] using hq, le_refl _, hrank0⟩
    | ok out =>
      obtain ⟨ps, st'⟩ := out
      obtain ⟨qd, pt, m, hql, hpend, hpt, hm, horc, hst⟩ :=
        prepare_swap_ok qid' cpk orc st ps st' h
      constructor
      · simp only [stepBroker, h, hst]
        exact all_insertA _ _ _ _ hok rfl
      · by_cases he : qid = qid'
        · subst he
          refine ⟨.Accepted, ?_, ?_, by decide⟩
          · simp only [stepBroker, h, hst]
            unfold quoteStatus
            rw [lookupA_insertA_self]
            rfl
          · unfold quoteStatus at hq
            rw [hql] at hq
            have hqs : qd.quote.status = s₀ := by simpa using hq
            rw [← hqs, hpend]
            decide
        · refine ⟨s₀, ?_, le_refl _, hrank0⟩
          simp only [stepBroker, h, hst]
          unfold quoteStatus at hq ⊢
          simpa [lookupA_insertA_ne st.quotes qid' qid _ he] using hq
  | complete qid' ps orc now =>
    cases h : complete_swap qid' ps orc now st with
    | error e =>
      exact ⟨by simpa [stepBroker, h] using hok,
        s₀, by simpa [stepBroker, h] using hq, le_refl _, hrank0⟩
    | ok st' =>
      obtain ⟨qd, m, nps, hql, hm, horc, hst⟩ :=
        complete_swap_ok qid' ps orc now st st' h
      constructor
      · simp only [stepBroker, h, hst]
        exact all_updateA _ _ _ _ hok (fun p _ => rfl)
      · by_cases he : qid = qid'
        · subst he
          refine ⟨.Completed, ?_, ?_, by decide⟩
          · simp only [stepBroker, h, hst]
            unfold quoteStatus
            rw [show (⟨updateA st.quotes qid
                (fun qd => { qd with quote := { qd.quote with status := .Completed } }),
                updateA st.executions qid
                  (fun ex => { ex with
                    client_swap_complete := true
                    broker_swap_complete := true
                    completed_at := some now }),
                insertA st.ledger qd.quote.from_mint
                  { m with
                    proofs := m.proofs ++ nps
                    balance := m.balance + proofsSum nps
                    last_updated := now }⟩ : CoordState).quotes
              = updateA st.quotes qid
                (fun qd => { qd with quote := { qd.quote with status := .Completed } })
              from rfl]
            rw [lookupA_updateA_self, hql]
            rfl
          · exact hrank0
        · refine ⟨s₀, ?_, le_refl _, hrank0⟩
          simp only [stepBroker, h, hst]
          unfold quoteStatus at hq ⊢
          simpa [lookupA_updateA_ne st.quotes qid' qid _ he] using hq

/-- C4 witness: the invariants hold when completing the Accepted quote of
`stWithAccepted`. -/
theorem swap_status_monotone_witness :
    statusesOk stWithAccepted = true
    ∧ opFresh (.complete "q1" [⟨8, 43, 0⟩] walletSwapOracle 100) stWithAccepted = true
    ∧ quoteStatus stWithAccepted "q1" = some .Accepted
    ∧ statusesOk (stepBroker (.complete "q1" [⟨8, 43, 0⟩] walletSwapOracle 100)
        stWithAccepted) = true :=
  ⟨by decide, by decide, by decide,
    (swap_status_monotone (.complete "q1" [⟨8, 43, 0⟩] walletSwapOracle 100)
      stWithAccepted "q1" .Accepted (by decide) (by decide) (by decide)).1⟩

/-- C4 counterexample: `complete_swap` does not reject a quote that is not
Accepted — the still-Pending S1 quote is completed directly,
`Pending → Completed`, with no error. -/
theorem complete_swap_skips_accepted_cex :
    quoteStatus stReq "q1" = some .Pending
    ∧ (complete_swap "q1" [⟨8, 43, 0⟩] walletSwapOracle 50 stReq).isOk = true
    ∧ quoteStatus (stepBroker (.complete "q1" [⟨8, 43, 0⟩] walletSwapOracle 50) stReq) "q1"
        = some .Completed :=
  ⟨by decide, by decide, by decide⟩

end CashuBroker
